import Mathlib

/-!
Shallow embedding of the multi-source weighted batching engine
(`multi_dataset.py`, class `MultiDataset`) and the parts of its environment
that the verification needs.  Machine floats of the original are interpreted
over exact rational arithmetic; fallible Python code is modelled with
`Except`.  Cells of the per-source column arrays are a generic type `γ`;
a source's column tuple is a `List (List γ)` and a row is a `List γ`.
-/

/- Core marks rational arithmetic irreducible, which blocks `decide` on
concrete rationals; restore the default transparency for this development. -/
attribute [local semireducible] Rat.add Rat.sub Rat.mul Rat.inv

deriving instance DecidableEq for Except

namespace TautauNN

/-- Python's builtin `round` (banker's rounding, round-half-to-even),
interpreted over exact rationals: used at `multi_dataset.py:46`. -/
def pyRound (q : ℚ) : ℤ :=
  let f : ℤ := Int.floor q
  let r : ℚ := q - (f : ℚ)
  if r < 1/2 then f
  else if 1/2 < r then f + 1
  else if f % 2 = 0 then f else f + 1

/-- The running-carry allocation loop of `MultiDataset.__init__`
(`multi_dataset.py:43-48`): `bs = weight / sum_weights * batch_size - carry;
bs_int = int(round(bs)); carry = bs_int - bs`. -/
def allocGo (S B : ℚ) : List ℚ → ℚ → List ℤ
  | [], _ => []
  | w :: ws, carry =>
    let bs : ℚ := w / S * B - carry
    let bs_int : ℤ := pyRound bs
    bs_int :: allocGo S B ws ((bs_int : ℚ) - bs)

/-- `self.batch_sizes` as computed at construction (`multi_dataset.py:40-48`):
the carry starts at `0.0` and the divisor is `sum(self.weights)`. -/
def batchSizes (weights : List ℚ) (batch_size : ℤ) : List ℤ :=
  allocGo weights.sum (batch_size : ℚ) weights 0

/-- The Python exception classes that the constructor and the `map` method
can raise in the embedded fragment. -/
inductive PyError
  | valueError
  | zeroDivisionError
  | attributeError
  deriving DecidableEq, Repr

/-- The `kind` argument; `__init__` asserts `kind in ["train", "valid"]`
(`multi_dataset.py:20`). -/
inductive Kind
  | train
  | valid
  deriving DecidableEq, Repr

/-- Models the external library call `tf.data.Dataset.from_tensor_slices(arrays)`
(`multi_dataset.py:32`): a tuple of equal-length columns becomes the list of
its rows; mismatched first dimensions raise `ValueError`.  An empty column
tuple is also rejected (the constructor would fail on `arrays[0]` at
`multi_dataset.py:33` regardless). -/
def fromTensorSlices {γ : Type} [Inhabited γ] (cols : List (List γ)) :
    Except PyError (List (List γ)) :=
  match cols with
  | [] => Except.error PyError.valueError
  | c :: cs =>
    if ∀ col ∈ cs, col.length = c.length then
      Except.ok ((List.range c.length).map (fun r => (c :: cs).map (fun col => col.getD r default)))
    else
      Except.error PyError.valueError

/-- The loop of `multi_dataset.py:28-34`, restricted to the dataset list it
builds: each source's arrays go through `from_tensor_slices`, in input order,
and the first failure aborts construction. -/
def buildDatasets {γ : Type} [Inhabited γ] :
    List (List (List γ) × ℚ) → Except PyError (List (List (List γ)))
  | [] => Except.ok []
  | s :: rest =>
    match fromTensorSlices s.1 with
    | Except.error e => Except.error e
    | Except.ok rows =>
      match buildDatasets rest with
      | Except.error e => Except.error e
      | Except.ok ds => Except.ok (rows :: ds)

/-- `self.max_iter_valid` (`multi_dataset.py:53`):
`int(math.ceil(max([c / bs for c, bs in zip(self.counts, self.batch_sizes)])))`.
A zero batch size raises `ZeroDivisionError` inside the comprehension; an
empty list raises `ValueError` in `max`. -/
def maxIterValid (counts : List ℕ) (bss : List ℤ) : Except PyError ℤ :=
  let pairs := counts.zip bss
  if ∃ p ∈ pairs, p.2 = 0 then Except.error PyError.zeroDivisionError
  else
    match pairs with
    | [] => Except.error PyError.valueError
    | p :: ps =>
      Except.ok (Int.ceil ((ps.map (fun q => (q.1 : ℚ) / (q.2 : ℚ))).foldl max ((p.1 : ℚ) / (p.2 : ℚ))))

/-- The state built by `MultiDataset.__init__`.  `datasets` holds each
source's rows (the result of `from_tensor_slices`).  The mutable
`self.batches_seen` (initialised to `None`) is not stored: it is reset to `0`
at the start of every `__iter__` call and is modelled inside the iteration
functions. -/
structure MultiDataset (γ : Type) where
  kind : Kind
  seed : Option ℤ
  datasets : List (List (List γ))
  counts : List ℕ
  weights : List ℚ
  batch_sizes : List ℤ
  max_iter_valid : ℤ
  tuple_length : ℕ
  deriving DecidableEq, Repr

/-- `MultiDataset.__init__` (`multi_dataset.py:11-53`).  Order of effects as
in the source: the data loop (with `from_tensor_slices` validation), then the
allocation loop (`weight / sum_weights` raises `ZeroDivisionError` when the
weights sum to zero and the loop runs), then the advisory print of a batch
size mismatch at lines 50-51 (a no-op here: it never raises), then
`max_iter_valid`.  `self.tuple_length` is overwritten by every source, so the
last source wins. -/
def mkMultiDataset {γ : Type} [Inhabited γ] (data : List (List (List γ) × ℚ))
    (batch_size : ℤ) (kind : Kind) (seed : Option ℤ) :
    Except PyError (MultiDataset γ) :=
  match buildDatasets data with
  | Except.error e => Except.error e
  | Except.ok datasets =>
    let counts : List ℕ := data.map (fun s => (s.1.getD 0 []).length)
    let weights : List ℚ := data.map (fun s => s.2)
    let tuple_length : ℕ := ((data.getLast?).map (fun s => s.1.length)).getD 0
    if weights ≠ [] ∧ weights.sum = 0 then Except.error PyError.zeroDivisionError
    else
      let batch_sizes : List ℤ := batchSizes weights batch_size
      match maxIterValid counts batch_sizes with
      | Except.error e => Except.error e
      | Except.ok miv =>
        Except.ok { kind := kind, seed := seed, datasets := datasets,
                    counts := counts, weights := weights,
                    batch_sizes := batch_sizes, max_iter_valid := miv,
                    tuple_length := tuple_length }

/-- One sub-batch pull in validation mode.  `__iter__` builds, per source,
`dataset.repeat(-1).batch(bs)` (`multi_dataset.py:72-81`, no shuffling since
`kind == "valid"`): the row stream is the endless cyclic repetition of the
rows, cut into chunks of size `bs`, so the `k`-th chunk holds the rows at
indices `(k*bs+j) % count`.  An empty source stays empty under `repeat(-1)`,
so its iterator raises `StopIteration` at once (`none`).  TF rejects
non-positive batch sizes; `bs ≥ 1` is an obligation of the callers. -/
def pullBatch {γ : Type} (rows : List (List γ)) (bs : ℤ) (k : ℕ) :
    Option (List (List γ)) :=
  if rows.length = 0 then none
  else some ((List.range bs.toNat).map (fun j => rows.getD ((k * bs.toNat + j) % rows.length) []))

/-- The per-source pull loop of one attempt (`multi_dataset.py:88-97`) in
validation mode: pull the `k`-th sub-batch from every source in input order;
the first `StopIteration` aborts the combined batch (`do_break`). -/
def pullAllValidGo {γ : Type} :
    List (List (List γ) × ℤ) → ℕ → Option (List (List (List γ)))
  | [], _ => some []
  | (rows, bs) :: rest, k =>
    match pullBatch rows bs k with
    | none => none
    | some b =>
      match pullAllValidGo rest k with
      | none => none
      | some bs2 => some (b :: bs2)

/-- All sources' `k`-th sub-batches in validation mode. -/
def pullAllValid {γ : Type} (d : MultiDataset γ) (k : ℕ) :
    Option (List (List (List γ))) :=
  pullAllValidGo (d.datasets.zip d.batch_sizes) k

/-- The combined batch (`multi_dataset.py:104`): for each column position
`i < tuple_length`, concatenate the per-source sub-batches' column `i` along
the row axis, in source order. -/
def assemble {γ : Type} [Inhabited γ] (tuple_length : ℕ)
    (dataset_batches : List (List (List γ))) : List (List γ) :=
  (List.range tuple_length).map
    (fun i => (dataset_batches.map (fun b => b.map (fun r => r.getD i default))).flatten)

/-- The `while True` loop of `__iter__` (`multi_dataset.py:84-108`)
specialised to `kind == "valid"`: in-memory validation reads raise no
`DataLossError`, so an attempt either breaks on `StopIteration` or yields and
then stops as soon as the incremented `batches_seen` (here `seen + 1`)
reaches `max_iter_valid`.  The loop itself is unbounded; `fuel` only bounds
the recursion and `validIter` passes enough of it for the counter check to
fire first. -/
def validGo {γ : Type} [Inhabited γ] (d : MultiDataset γ) :
    ℕ → ℕ → List (List (List γ))
  | _, 0 => []
  | seen, fuel + 1 =>
    match pullAllValid d seen with
    | none => []
    | some dbs =>
      assemble d.tuple_length dbs ::
        (if d.max_iter_valid ≤ (seen : ℤ) + 1 then [] else validGo d (seen + 1) fuel)

/-- One full validation iteration: fresh cursor state (`batches_seen = 0`,
new per-source iterators) on every call of `__iter__`. -/
def validIter {γ : Type} [Inhabited γ] (d : MultiDataset γ) :
    List (List (List γ)) :=
  validGo d 0 (d.max_iter_valid.toNat + 1)

/-- The result of one `next(it)` on a source's batched iterator in training
mode.  Training reads can fail with the transient
`tf.errors.DataLossError` (`multi_dataset.py:91`), so the per-source
iterators are modelled abstractly as streams of pull results, indexed by how
many `next` calls the iterator has served. -/
inductive PullRes (β : Type)
  | batch (b : β)
  | dataLoss
  | stopIter
  deriving DecidableEq, Repr

/-- How one attempt of the `while True` body ends: a combined list of
sub-batches to yield, `continue` (after a `DataLossError`), or `break`
(after a `StopIteration`). -/
inductive AttemptOut (β : Type)
  | yieldOut (bs : List β)
  | continueOut
  | breakOut
  deriving DecidableEq, Repr

/-- The per-source pull loop of one attempt (`multi_dataset.py:85-97`) in
training mode, over the zipped (iterator stream, cursor) list: every `next`
advances its iterator's cursor; a `DataLossError` at one source abandons the
attempt (`do_continue`), discarding the sub-batches already pulled; a
`StopIteration` breaks the outer loop (`do_break`).  Returns the updated
cursors and the outcome. -/
def attemptGo {β : Type} :
    List ((ℕ → PullRes β) × ℕ) → List ℕ × AttemptOut β
  | [] => ([], AttemptOut.yieldOut [])
  | (p, c) :: rest =>
    match p c with
    | PullRes.batch b =>
      match attemptGo rest with
      | (cs, AttemptOut.yieldOut bs) => ((c + 1) :: cs, AttemptOut.yieldOut (b :: bs))
      | (cs, out) => ((c + 1) :: cs, out)
    | PullRes.dataLoss => ((c + 1) :: rest.map (fun x => x.2), AttemptOut.continueOut)
    | PullRes.stopIter => (c :: rest.map (fun x => x.2), AttemptOut.breakOut)

/-- One attempt at assembling a combined batch in training mode. -/
def runAttempt {β : Type} (pulls : List (ℕ → PullRes β)) (cursors : List ℕ) :
    List ℕ × AttemptOut β :=
  attemptGo (pulls.zip cursors)

/-- The `while True` loop (`multi_dataset.py:84-108`) for `kind == "train"`
(no `max_iter_valid` check): yields the combined sub-batch lists of the
successful attempts and threads `batches_seen` (`seen`), which advances only
when a batch is yielded.  The real loop is endless; `fuel` bounds the
observation window. -/
def trainLoop {β : Type} (pulls : List (ℕ → PullRes β)) :
    ℕ → List ℕ → ℕ → List (List β) × ℕ
  | 0, _, seen => ([], seen)
  | fuel + 1, cursors, seen =>
    match runAttempt pulls cursors with
    | (cs, AttemptOut.yieldOut bs) =>
      let r := trainLoop pulls fuel cs (seen + 1)
      (bs :: r.1, r.2)
    | (cs, AttemptOut.continueOut) => trainLoop pulls fuel cs seen
    | (_, AttemptOut.breakOut) => ([], seen)

/-- The arguments of one `dataset.shuffle(...)` call. -/
structure ShuffleSpec where
  buffer : ℕ
  reshuffle_each_iteration : Bool
  seed : Option ℤ
  deriving DecidableEq, Repr

/-- The shuffle configuration `__iter__` builds in training mode
(`multi_dataset.py:64-69`):
`dataset.shuffle(10 * count, reshuffle_each_iteration=True, seed=self.seed)`
for every source. -/
def trainShuffleSpecs {γ : Type} (d : MultiDataset γ) : List ShuffleSpec :=
  (d.datasets.zip d.counts).map
    (fun x => { buffer := 10 * x.2, reshuffle_each_iteration := true, seed := d.seed })

/-- Follows the spec's words, for comparison with the code's seeding:
"a source-specific deterministic seed (derived from a global seed plus a
source index)". -/
def specDerivedSeeds (globalSeed : ℤ) (n : ℕ) : List (Option ℤ) :=
  (List.range n).map (fun i => some (globalSeed + (i : ℤ)))

/-- Modelled from the spec: the transform hook of the batch assembler.  The
`transform_data` callable that `train_combined.py:574/581` passes to
`MultiDataset` belongs to a version of `multi_dataset.py` that is not part of
this source tree (only its call site is).  Spec 4.3: "If a transform callable
was supplied at construction, invoke it with the full concatenated column
tuple ... and use its return value ... as the final batch; transform failures
propagate as fatal (not retried)".  `runTransformed t batches` returns the
batches the consumer receives (each the transform's return value) and, when
the transform fails, the error that propagates; nothing is yielded past a
failure and the failing batch is not retried. -/
def runTransformed {β ε : Type} (t : β → Except ε β) :
    List β → List β × Option ε
  | [] => ([], none)
  | b :: rest =>
    match t b with
    | Except.ok b2 =>
      let r := runTransformed t rest
      (b2 :: r.1, r.2)
    | Except.error e => ([], some e)

/-- Modelled from the spec: a full validation iteration with a transform
callable installed — each assembled combined batch is passed through the
transform before being yielded. -/
def iterWithTransform {γ ε : Type} [Inhabited γ] (d : MultiDataset γ)
    (t : List (List γ) → Except ε (List (List γ))) :
    List (List (List γ)) × Option ε :=
  runTransformed t (validIter d)

/-- The attributes `MultiDataset.__init__` assigns on `self`
(`multi_dataset.py:20-53`); no other method assigns any attribute
(checked over the whole source tree). -/
def constructorAssignedAttrs : List String :=
  ["kind", "seed", "datasets", "counts", "weights", "batches_seen",
   "tuple_length", "batch_sizes", "max_iter_valid"]

/-- `MultiDataset.map` (`multi_dataset.py:110-112`) begins by reading
`self._datasets`.  Python attribute lookup on an instance whose constructor
assigned exactly `constructorAssignedAttrs` raises `AttributeError` for any
name outside that list, before anything else in the method body runs. -/
def mapMethodLookup : Except PyError Unit :=
  if "_datasets" ∈ constructorAssignedAttrs then Except.ok ()
  else Except.error PyError.attributeError

/-! ## Properties of the rounding step -/

theorem pyRound_def (q : ℚ) :
    pyRound q = if q - (Int.floor q : ℚ) < 1/2 then Int.floor q
      else if 1/2 < q - (Int.floor q : ℚ) then Int.floor q + 1
      else if Int.floor q % 2 = 0 then Int.floor q else Int.floor q + 1 := rfl

theorem pyRound_intCast (z : ℤ) : pyRound (z : ℚ) = z := by
  rw [pyRound_def, Int.floor_intCast]
  norm_num

theorem abs_pyRound_sub_le (q : ℚ) : |(pyRound q : ℚ) - q| ≤ 1/2 := by
  rw [pyRound_def]
  have h0 : (Int.floor q : ℚ) ≤ q := Int.floor_le q
  have h1 : q < (Int.floor q : ℚ) + 1 := Int.lt_floor_add_one q
  split_ifs with hc1 hc2 hc3
  · rw [abs_le]; constructor <;> linarith
  · rw [abs_le]; push_cast; constructor <;> linarith
  · have heq : q - (Int.floor q : ℚ) = 1/2 := le_antisymm (not_lt.mp hc2) (not_lt.mp hc1)
    rw [abs_le]; constructor <;> linarith
  · have heq : q - (Int.floor q : ℚ) = 1/2 := le_antisymm (not_lt.mp hc2) (not_lt.mp hc1)
    rw [abs_le]; push_cast; constructor <;> linarith

theorem pyRound_nonneg (q : ℚ) (h : -(1/2) < q) : 0 ≤ pyRound q := by
  rw [pyRound_def]
  have h0 : (Int.floor q : ℚ) ≤ q := Int.floor_le q
  have h1 : q < (Int.floor q : ℚ) + 1 := Int.lt_floor_add_one q
  have hfm : -1 ≤ Int.floor q := by
    rw [Int.le_floor]; push_cast; linarith
  split_ifs with hc1 hc2 hc3
  · by_contra hneg
    push_neg at hneg
    have hle : Int.floor q ≤ -1 := by omega
    have hle2 : (Int.floor q : ℚ) ≤ -1 := by exact_mod_cast hle
    linarith
  · omega
  · by_contra hneg
    push_neg at hneg
    have hle : Int.floor q ≤ -1 := by omega
    have hle2 : (Int.floor q : ℚ) ≤ -1 := by exact_mod_cast hle
    have heq : q - (Int.floor q : ℚ) = 1/2 := le_antisymm (not_lt.mp hc2) (not_lt.mp hc1)
    linarith
  · omega

/-! ## Properties of the allocation loop -/

theorem allocGo_length (S B : ℚ) (ws : List ℚ) : ∀ c, (allocGo S B ws c).length = ws.length := by
  induction ws with
  | nil => intro c; rfl
  | cons w ws ih => intro c; simp [allocGo, ih]

/-- Telescoping sum of the running-carry loop: whenever the ideal shares of
the remaining sources minus the incoming carry add up to an integer `m`, the
allocated integers add up to exactly `m`.  (The last source's ideal value is
then itself an integer, so its rounding is exact.) -/
theorem allocGo_sum (S B : ℚ) :
    ∀ (ws : List ℚ) (c : ℚ) (m : ℤ), ws ≠ [] →
      (ws.map (fun w => w / S * B)).sum - c = (m : ℚ) →
      (allocGo S B ws c).sum = m := by
  intro ws
  induction ws with
  | nil => intro c m h; exact absurd rfl h
  | cons w ws ih =>
    intro c m _ hsum
    cases ws with
    | nil =>
      have hbs : w / S * B - c = ((m : ℤ) : ℚ) := by
        simpa using hsum
      simp [allocGo, hbs, pyRound_intCast]
    | cons w2 ws2 =>
      have hstep : allocGo S B (w :: w2 :: ws2) c =
          pyRound (w / S * B - c) ::
            allocGo S B (w2 :: ws2)
              ((pyRound (w / S * B - c) : ℚ) - (w / S * B - c)) := rfl
      rw [hstep, List.sum_cons]
      have hnext :
          ((w2 :: ws2).map (fun x => x / S * B)).sum -
              ((pyRound (w / S * B - c) : ℚ) - (w / S * B - c)) =
            ((m - pyRound (w / S * B - c) : ℤ) : ℚ) := by
        simp only [List.map_cons, List.sum_cons] at hsum ⊢
        push_cast
        linarith
      rw [ih ((pyRound (w / S * B - c) : ℚ) - (w / S * B - c))
        (m - pyRound (w / S * B - c)) (by simp) hnext]
      omega

theorem allocGo_nonneg (S B : ℚ) (hS : 0 < S) (hB : 0 < B) :
    ∀ (ws : List ℚ) (c : ℚ), (∀ w ∈ ws, 0 < w) → |c| ≤ 1/2 →
      ∀ n ∈ allocGo S B ws c, 0 ≤ n := by
  intro ws
  induction ws with
  | nil => intro c _ _ n hn; simp [allocGo] at hn
  | cons w ws ih =>
    intro c hpos hc n hn
    simp only [allocGo, List.mem_cons] at hn
    rcases hn with h | h
    · subst h
      apply pyRound_nonneg
      have hw : 0 < w := hpos w (by simp)
      have hwSB : 0 < w / S * B := by positivity
      have hc2 := abs_le.mp hc
      linarith
    · exact ih _ (fun x hx => hpos x (by simp [hx])) (abs_pyRound_sub_le _) n h

theorem sum_map_div_mul (S B : ℚ) (ws : List ℚ) :
    (ws.map (fun w => w / S * B)).sum = ws.sum / S * B := by
  induction ws with
  | nil => simp
  | cons w ws ih =>
    simp only [List.map_cons, List.sum_cons, ih]
    ring

/-- If every source's exact share `w / S * B` is an integer, the carry stays
`0` and the loop just rounds each share in place. -/
theorem allocGo_int_shares (S B : ℚ) :
    ∀ ws : List ℚ, (∀ w ∈ ws, ∃ z : ℤ, w / S * B = (z : ℚ)) →
      allocGo S B ws 0 = ws.map (fun w => pyRound (w / S * B)) := by
  intro ws
  induction ws with
  | nil => intro _; rfl
  | cons w ws ih =>
    intro h
    obtain ⟨z, hz⟩ := h w (by simp)
    have hcar : ((pyRound (w / S * B - 0) : ℤ) : ℚ) - (w / S * B - 0) = 0 := by
      rw [sub_zero, hz, pyRound_intCast, sub_self]
    simp only [allocGo, List.map_cons, sub_zero] at hcar ⊢
    rw [hcar, ih (fun x hx => h x (by simp [hx]))]

/-! ## C1: the allocation contract -/

/-- C1, amended to require at least one source: for every nonempty list of
positive weights and positive batch size `B` with at least as many units as
sources, the allocation of `multi_dataset.py:40-48` (interpreted over exact
rationals) yields one non-negative integer per source, in input order, and
the sizes sum to exactly `B`. -/
theorem batchSizes_allocation_spec (w : List ℚ) (B : ℤ)
    (hw : ∀ x ∈ w, 0 < x) (hB : 0 < B) (hlen : (w.length : ℤ) ≤ B)
    (hne : w ≠ []) :
    (batchSizes w B).length = w.length ∧
    (∀ n ∈ batchSizes w B, 0 ≤ n) ∧
    (batchSizes w B).sum = B := by
  have hS : 0 < w.sum := List.sum_pos w hw hne
  have hBq : (0 : ℚ) < (B : ℚ) := by exact_mod_cast hB
  refine ⟨allocGo_length _ _ _ _, ?_, ?_⟩
  · exact allocGo_nonneg w.sum (B : ℚ) hS hBq w 0 hw (by norm_num)
  · apply allocGo_sum w.sum (B : ℚ) w 0 B hne
    rw [sum_map_div_mul, sub_zero, div_self (ne_of_gt hS), one_mul]

/-- C1 counterexample: the empty weight sequence satisfies every hypothesis
of the claim as stated (`len(w) <= B`, all weights vacuously positive,
`B > 0`), yet the allocation returns `[]`, whose sum is `0`, not `B`. -/
theorem batchSizes_empty_counterexample :
    (∀ x ∈ ([] : List ℚ), 0 < x) ∧ (0 : ℤ) < 1 ∧
      ((([] : List ℚ).length : ℤ) ≤ 1) ∧ (batchSizes ([] : List ℚ) 1).sum ≠ 1 := by
  refine ⟨by simp, by norm_num, by simp, by decide⟩

/-- C1 witness: the spec's own concrete scenario, weights `[2, 1, 1]` with
batch size `8`. -/
theorem batchSizes_allocation_spec_witness :
    (batchSizes [2, 1, 1] 8).length = 3 ∧
    (∀ n ∈ batchSizes [2, 1, 1] 8, 0 ≤ n) ∧
    (batchSizes [2, 1, 1] 8).sum = 8 := by
  have h := batchSizes_allocation_spec [2, 1, 1] 8 (by decide) (by decide)
    (by decide) (by decide)
  simpa using h

/-! ## C8: order-stability of the allocation -/

/-- The allocation, viewed positionally over `Fin n`. -/
def batchSizesF {n : ℕ} (B : ℤ) (v : Fin n → ℚ) : Fin n → ℤ :=
  fun i => (batchSizes (List.ofFn v) B).getD i 0

/-- C8 counterexample: three equal (positive) weights and batch size `4`
(so `len(w) <= B`).  The carry makes the allocation `[1, 2, 1]`, which is not
invariant under permuting the (identical!) weights and inverse-permuting the
result: the claim as stated fails. -/
theorem allocation_not_order_stable :
    (∀ i : Fin 3, 0 < (fun _ : Fin 3 => (1 : ℚ)) i) ∧
    batchSizesF 4 ((fun _ : Fin 3 => (1 : ℚ)) ∘ (Equiv.swap 0 1))
        ((Equiv.swap (0 : Fin 3) 1).symm 0) ≠
      batchSizesF 4 (fun _ : Fin 3 => (1 : ℚ)) 0 := by
  constructor
  · intro i; norm_num
  · decide

/-- C8, amended: the allocation is order-stable whenever every source's
exact share `wᵢ / sum * B` is an integer (then no carry is ever generated);
with a nonzero carry the result genuinely depends on the processing order. -/
theorem allocation_perm_stable_integer_shares {n : ℕ} (B : ℤ) (v : Fin n → ℚ)
    (p : Equiv.Perm (Fin n)) (hS : (List.ofFn v).sum ≠ 0)
    (hint : ∀ i, ∃ z : ℤ, v i / (List.ofFn v).sum * B = (z : ℚ)) :
    ∀ i, batchSizesF B (v ∘ p) (p.symm i) = batchSizesF B v i := by
  have hsum : (List.ofFn (v ∘ p)).sum = (List.ofFn v).sum := by
    rw [List.sum_ofFn, List.sum_ofFn]
    exact Equiv.sum_comp p v
  intro i
  unfold batchSizesF batchSizes
  rw [hsum]
  rw [allocGo_int_shares _ _ _ (by
    intro w hw
    rw [List.mem_ofFn] at hw
    obtain ⟨j, hj⟩ := hw
    exact hj ▸ hint (p j))]
  rw [allocGo_int_shares _ _ _ (by
    intro w hw
    rw [List.mem_ofFn] at hw
    obtain ⟨j, hj⟩ := hw
    exact hj ▸ hint j)]
  rw [List.map_ofFn, List.map_ofFn]
  rw [List.getD_eq_getElem _ _ (by simp [(p.symm i).isLt]),
    List.getD_eq_getElem _ _ (by simp [i.isLt])]
  simp [List.getElem_ofFn, Function.comp, Equiv.apply_symm_apply]

/-- C8 witness: two equal weights with batch size `4` give integer shares
`2, 2`; the allocation is then stable under the swap. -/
theorem allocation_perm_stable_integer_shares_witness :
    batchSizesF 4 ((fun _ : Fin 2 => (1 : ℚ)) ∘ (Equiv.swap 0 1))
        ((Equiv.swap (0 : Fin 2) 1).symm 0) =
      batchSizesF 4 (fun _ : Fin 2 => (1 : ℚ)) 0 :=
  allocation_perm_stable_integer_shares 4 (fun _ => 1) (Equiv.swap 0 1)
    (by decide) (by intro i; fin_cases i <;> exact ⟨2, by decide⟩) 0

/-! ## Constructor-level lemmas -/

theorem buildDatasets_ok_of_forall {γ : Type} [Inhabited γ]
    {data : List (List (List γ) × ℚ)}
    (h : ∀ s ∈ data, ∃ rows, fromTensorSlices s.1 = Except.ok rows) :
    ∃ ds, buildDatasets data = Except.ok ds := by
  induction data with
  | nil => exact ⟨[], rfl⟩
  | cons s rest ih =>
    obtain ⟨rows, hrows⟩ := h s (by simp)
    obtain ⟨ds, hds⟩ := ih (fun x hx => h x (by simp [hx]))
    exact ⟨rows :: ds, by simp [buildDatasets, hrows, hds]⟩

theorem buildDatasets_append_error {γ : Type} [Inhabited γ]
    {s : List (List γ) × ℚ} {e : PyError} :
    ∀ (pre : List (List (List γ) × ℚ)) (post : List (List (List γ) × ℚ)),
      (∀ x ∈ pre, ∃ rows, fromTensorSlices x.1 = Except.ok rows) →
      fromTensorSlices s.1 = Except.error e →
      buildDatasets (pre ++ s :: post) = Except.error e := by
  intro pre
  induction pre with
  | nil => intro post _ hs; simp [buildDatasets, hs]
  | cons x pre ih =>
    intro post hpre hs
    obtain ⟨rows, hrows⟩ := hpre x (by simp)
    simp [buildDatasets, hrows, ih post (fun y hy => hpre y (by simp [hy])) hs]

theorem buildDatasets_ok_forall2 {γ : Type} [Inhabited γ] :
    ∀ {data : List (List (List γ) × ℚ)} {ds : List (List (List γ))},
      buildDatasets data = Except.ok ds →
      List.Forall₂ (fun s rows => fromTensorSlices s.1 = Except.ok rows) data ds := by
  intro data
  induction data with
  | nil =>
    intro ds h
    simp only [buildDatasets, Except.ok.injEq] at h
    rw [← h]
    exact List.Forall₂.nil
  | cons s rest ih =>
    intro ds h
    simp only [buildDatasets] at h
    rcases hr : fromTensorSlices s.1 with e | rows
    · rw [hr] at h; exact absurd h (by simp)
    · rw [hr] at h
      rcases hb : buildDatasets rest with e | ds2
      · rw [hb] at h; exact absurd h (by simp)
      · rw [hb] at h
        simp only [Except.ok.injEq] at h
        rw [← h]
        exact List.Forall₂.cons hr (ih hb)

/-- Inversion of a successful construction: the fields of the result. -/
theorem mk_ok_inversion {γ : Type} [Inhabited γ]
    {data : List (List (List γ) × ℚ)} {B : ℤ} {kind : Kind} {seed : Option ℤ}
    {d : MultiDataset γ} (h : mkMultiDataset data B kind seed = Except.ok d) :
    buildDatasets data = Except.ok d.datasets ∧
    d.counts = data.map (fun s => (s.1.getD 0 []).length) ∧
    d.weights = data.map (fun s => s.2) ∧
    d.batch_sizes = batchSizes (data.map (fun s => s.2)) B ∧
    maxIterValid d.counts d.batch_sizes = Except.ok d.max_iter_valid ∧
    d.kind = kind ∧ d.seed = seed ∧
    d.tuple_length = ((data.getLast?).map (fun s => s.1.length)).getD 0 := by
  unfold mkMultiDataset at h
  rcases hbd : buildDatasets data with e | ds
  · rw [hbd] at h; exact absurd h (by simp)
  · rw [hbd] at h
    simp only at h
    by_cases hw : (data.map (fun s => s.2)) ≠ [] ∧ (data.map (fun s => s.2)).sum = 0
    · rw [if_pos hw] at h; exact absurd h (by simp)
    · rw [if_neg hw] at h
      rcases hmv : maxIterValid (data.map (fun s => (s.1.getD 0 []).length))
          (batchSizes (data.map (fun s => s.2)) B) with e | m
      · rw [hmv] at h; exact absurd h (by simp)
      · rw [hmv] at h
        simp only [Except.ok.injEq] at h
        rw [← h]
        exact ⟨rfl, rfl, rfl, rfl, hmv, rfl, rfl, rfl⟩

theorem exists_mem_zip_right {α β : Type} :
    ∀ (l1 : List α) (l2 : List β) (b : β), l1.length = l2.length → b ∈ l2 →
      ∃ a, (a, b) ∈ l1.zip l2 := by
  intro l1
  induction l1 with
  | nil =>
    intro l2 b hlen hb
    cases l2 with
    | nil => simp at hb
    | cons x t => simp at hlen
  | cons a t1 ih =>
    intro l2 b hlen hb
    cases l2 with
    | nil => simp at hb
    | cons x t2 =>
      simp only [List.mem_cons] at hb
      rcases hb with rfl | hb
      · exact ⟨a, by simp⟩
      · obtain ⟨a2, ha2⟩ := ih t2 b (by simpa using hlen) hb
        exact ⟨a2, by simp [ha2]⟩

theorem maxIterValid_error_of_zero (counts : List ℕ) (bss : List ℤ)
    (hlen : counts.length = bss.length) (h0 : (0 : ℤ) ∈ bss) :
    maxIterValid counts bss = Except.error PyError.zeroDivisionError := by
  obtain ⟨c, hc⟩ := exists_mem_zip_right counts bss 0 hlen h0
  unfold maxIterValid
  rw [if_pos ⟨(c, 0), hc, rfl⟩]

theorem maxIterValid_ok_of (counts : List ℕ) (bss : List ℤ)
    (hne : counts.zip bss ≠ [])
    (h0 : ∀ p ∈ counts.zip bss, p.2 ≠ 0) :
    ∃ m, maxIterValid counts bss = Except.ok m := by
  unfold maxIterValid
  rw [if_neg (by
    intro hex
    obtain ⟨p, hp, hp0⟩ := hex
    exact h0 p hp hp0)]
  rcases hp : counts.zip bss with _ | ⟨p, ps⟩
  · exact absurd hp hne
  · exact ⟨_, rfl⟩

theorem maxIterValid_ok_no_zero {counts : List ℕ} {bss : List ℤ} {m : ℤ}
    (h : maxIterValid counts bss = Except.ok m) :
    ∀ p ∈ counts.zip bss, p.2 ≠ 0 := by
  intro p hp hp0
  unfold maxIterValid at h
  rw [if_pos ⟨p, hp, hp0⟩] at h
  exact absurd h (by simp)

theorem le_foldl_max (l : List ℚ) : ∀ a b : ℚ, a ≤ b → a ≤ l.foldl max b := by
  induction l with
  | nil => intro a b h; simpa using h
  | cons x l ih =>
    intro a b h
    simp only [List.foldl_cons]
    exact ih a (max b x) (le_trans h (le_max_left b x))

/-- A successful `max_iter_valid` is at least `1` when the first source has
rows and a positive batch size. -/
theorem maxIterValid_ok_pos {c0 : ℕ} {bs0 : ℤ} {cs : List ℕ} {bs2 : List ℤ}
    {m : ℤ} (h : maxIterValid (c0 :: cs) (bs0 :: bs2) = Except.ok m)
    (hc0 : 0 < c0) (hbs0 : 0 < bs0) : 1 ≤ m := by
  have hnz := maxIterValid_ok_no_zero h
  unfold maxIterValid at h
  rw [if_neg (by
    intro hex
    obtain ⟨p, hp, hp0⟩ := hex
    exact hnz p hp hp0)] at h
  simp only [List.zip_cons_cons, Except.ok.injEq] at h
  have hr0 : (0 : ℚ) < (c0 : ℚ) / (bs0 : ℚ) := by
    apply div_pos
    · exact_mod_cast hc0
    · exact_mod_cast hbs0
  have hfold := le_foldl_max ((cs.zip bs2).map (fun q => (q.1 : ℚ) / (q.2 : ℚ)))
    ((c0 : ℚ) / (bs0 : ℚ)) ((c0 : ℚ) / (bs0 : ℚ)) le_rfl
  have hpos : 0 < m := by
    rw [← h]
    exact Int.ceil_pos.mpr (lt_of_lt_of_le hr0 hfold)
  omega

/-! ## C9 / C4: configuration errors at construction -/

/-- C9, amended: construction fails immediately with zero sources
(`ValueError`, `max` of an empty sequence at line 53) and with mismatched
column lengths within a source (`ValueError` from `from_tensor_slices`);
and — regardless of any mismatch between the requested batch size and the
sum of the allocated sizes, which is only printed at lines 50-51 —
construction succeeds whenever the column tuples are well-formed, there is
at least one source, the weights do not sum to zero and no allocated size is
zero.  (Non-positive weights are not checked: see the counterexample.) -/
theorem construction_error_cases {γ : Type} [Inhabited γ] :
    (∀ (B : ℤ) (kind : Kind) (seed : Option ℤ),
      mkMultiDataset ([] : List (List (List γ) × ℚ)) B kind seed =
        Except.error PyError.valueError) ∧
    (∀ (pre : List (List (List γ) × ℚ)) (s : List (List γ) × ℚ)
        (post : List (List (List γ) × ℚ)) (B : ℤ) (kind : Kind)
        (seed : Option ℤ),
      (∀ x ∈ pre, ∃ rows, fromTensorSlices x.1 = Except.ok rows) →
      fromTensorSlices s.1 = Except.error PyError.valueError →
      mkMultiDataset (pre ++ s :: post) B kind seed =
        Except.error PyError.valueError) ∧
    (∀ (data : List (List (List γ) × ℚ)) (B : ℤ) (kind : Kind)
        (seed : Option ℤ),
      (∀ x ∈ data, ∃ rows, fromTensorSlices x.1 = Except.ok rows) →
      data ≠ [] →
      (data.map (fun s => s.2)).sum ≠ 0 →
      (∀ bs ∈ batchSizes (data.map (fun s => s.2)) B, bs ≠ 0) →
      ∃ d, mkMultiDataset data B kind seed = Except.ok d) := by
  refine ⟨?_, ?_, ?_⟩
  · intro B kind seed
    rfl
  · intro pre s post B kind seed hpre hs
    unfold mkMultiDataset
    rw [buildDatasets_append_error pre post hpre hs]
  · intro data B kind seed hcols hne hsum h0
    obtain ⟨ds, hds⟩ := buildDatasets_ok_of_forall hcols
    have hlenw : (data.map (fun s => s.2)).length = data.length := List.length_map _ _
    have hlenc : (data.map (fun s => (s.1.getD 0 []).length)).length = data.length :=
      List.length_map _ _
    have hlenb : (batchSizes (data.map (fun s => s.2)) B).length = data.length := by
      rw [batchSizes, allocGo_length, hlenw]
    have hzipne : (data.map (fun s => (s.1.getD 0 []).length)).zip
        (batchSizes (data.map (fun s => s.2)) B) ≠ [] := by
      intro hz
      have hlz := congrArg List.length hz
      rw [List.length_zip, hlenc, hlenb] at hlz
      simp only [List.length_nil, Nat.min_self] at hlz
      exact hne (List.length_eq_zero.mp hlz)
    obtain ⟨m, hm⟩ := maxIterValid_ok_of _ _ hzipne (by
      intro p hp
      exact h0 p.2 (List.of_mem_zip hp).2)
    unfold mkMultiDataset
    rw [hds]
    simp only
    rw [if_neg (by
      intro hcon
      exact hsum hcon.2)]
    rw [hm]
    exact ⟨_, rfl⟩

/-- C9 counterexample: a negative weight is accepted.  With weights
`[2, -1]` and batch size `4` the constructor completes without any error
(allocating sizes `[8, -4]`), so "construction fails immediately ... with
any non-positive weight" is false. -/
theorem negative_weight_accepted :
    mkMultiDataset [([[0]], (2 : ℚ)), ([[0]], -1)] 4 Kind.valid none =
      Except.ok { kind := Kind.valid, seed := none,
                  datasets := [[[0]], [[0]]], counts := [1, 1],
                  weights := [2, -1], batch_sizes := [8, -4],
                  max_iter_valid := 1, tuple_length := 1,
                  : MultiDataset ℕ } := by decide

/-- C9 witness: the three amended cases at concrete inputs — zero sources,
a source with mismatched column lengths, and a well-formed configuration
(which succeeds, nothing about the batch-size sum being checked). -/
theorem construction_error_cases_witness :
    mkMultiDataset ([] : List (List (List ℕ) × ℚ)) 4 Kind.valid none =
      Except.error PyError.valueError ∧
    mkMultiDataset [([[0], [1, 2]], (1 : ℚ))] 4 Kind.valid none =
      Except.error PyError.valueError ∧
    (∃ d, mkMultiDataset [([[0]], (1 : ℚ))] 4 Kind.train none = Except.ok d) := by
  refine ⟨construction_error_cases.1 4 Kind.valid none, ?_, ?_⟩
  · exact construction_error_cases.2.1 [] ([[0], [1, 2]], (1 : ℚ)) [] 4
      Kind.valid none (by simp) (by decide)
  · exact construction_error_cases.2.2 [([[0]], (1 : ℚ))] 4 Kind.train none
      (by
        intro x hx
        simp only [List.mem_singleton] at hx
        exact ⟨[[0]], by rw [hx]; decide⟩)
      (by simp) (by decide) (by decide)

/-- C4, amended: a configuration in which some source's allocated sub-batch
size is `0` (for instance a zero weight) does **not** run without error: the
`max_iter_valid` computation at `multi_dataset.py:53` divides each row count
by its batch size, so construction raises `ZeroDivisionError`, and no batch
is ever yielded from such a configuration. -/
theorem zero_sub_batch_construction_fails {γ : Type} [Inhabited γ]
    (data : List (List (List γ) × ℚ)) (B : ℤ) (kind : Kind) (seed : Option ℤ)
    (hcols : ∀ s ∈ data, ∃ rows, fromTensorSlices s.1 = Except.ok rows)
    (hsum : (data.map (fun s => s.2)).sum ≠ 0)
    (h0 : (0 : ℤ) ∈ batchSizes (data.map (fun s => s.2)) B) :
    mkMultiDataset data B kind seed = Except.error PyError.zeroDivisionError := by
  obtain ⟨ds, hds⟩ := buildDatasets_ok_of_forall hcols
  unfold mkMultiDataset
  rw [hds]
  simp only
  rw [if_neg (by
    intro hcon
    exact hsum hcon.2)]
  rw [maxIterValid_error_of_zero _ _ (by
    rw [List.length_map, batchSizes, allocGo_length, List.length_map]) h0]

/-- C4 counterexample: a two-source configuration where the second source
has weight `0` (hence allocated size `0`).  Construction raises
`ZeroDivisionError` instead of completing, refuting "construction and
iteration complete without error". -/
theorem zero_weight_counterexample :
    (mkMultiDataset [([[5]], (1 : ℚ)), ([[7]], 0)] 4 Kind.valid none :
        Except PyError (MultiDataset ℕ)) =
      Except.error PyError.zeroDivisionError := by decide

/-- C4 witness: the amended theorem applied to the same configuration in
training mode. -/
theorem zero_sub_batch_construction_fails_witness :
    (mkMultiDataset [([[5]], (1 : ℚ)), ([[7]], 0)] 4 Kind.train none :
        Except PyError (MultiDataset ℕ)) =
      Except.error PyError.zeroDivisionError := by
  apply zero_sub_batch_construction_fails
  · intro s hs
    simp only [List.mem_cons, List.mem_singleton] at hs
    rcases hs with rfl | rfl | h
    · exact ⟨[[5]], by decide⟩
    · exact ⟨[[7]], by decide⟩
    · simp at h
  · decide
  · decide

/-! ## Validation-mode iteration: C2 and C5 -/

theorem pullBatch_of_ne_nil {γ : Type} (rows : List (List γ)) (bs : ℤ) (k : ℕ)
    (h : rows ≠ []) :
    pullBatch rows bs k =
      some ((List.range bs.toNat).map
        (fun j => rows.getD ((k * bs.toNat + j) % rows.length) [])) := by
  unfold pullBatch
  rw [if_neg (by
    intro hl
    exact h (List.length_eq_zero.mp hl))]

theorem pullAllValidGo_isSome {γ : Type} :
    ∀ (l : List (List (List γ) × ℤ)) (k : ℕ), (∀ p ∈ l, p.1 ≠ []) →
      ∃ v, pullAllValidGo l k = some v := by
  intro l
  induction l with
  | nil => intro k _; exact ⟨[], rfl⟩
  | cons p rest ih =>
    intro k h
    obtain ⟨v, hv⟩ := ih k (fun x hx => h x (by simp [hx]))
    obtain ⟨rows, bs⟩ := p
    rw [pullAllValidGo, pullBatch_of_ne_nil rows bs k (h (rows, bs) (by simp)), hv]
    exact ⟨_, rfl⟩

theorem validGo_length {γ : Type} [Inhabited γ] (d : MultiDataset γ)
    (hpull : ∀ k, ∃ v, pullAllValid d k = some v) :
    ∀ (fuel seen : ℕ), (seen : ℤ) < d.max_iter_valid →
      d.max_iter_valid.toNat ≤ fuel + seen →
      (validGo d seen fuel).length = d.max_iter_valid.toNat - seen := by
  intro fuel
  induction fuel with
  | zero =>
    intro seen hlt hle
    simp only [validGo, List.length_nil]
    omega
  | succ fuel ih =>
    intro seen hlt hle
    obtain ⟨v, hv⟩ := hpull seen
    simp only [validGo, hv]
    by_cases hstop : d.max_iter_valid ≤ (seen : ℤ) + 1
    · rw [if_pos hstop]
      simp only [List.length_cons, List.length_nil]
      omega
    · rw [if_neg hstop]
      simp only [List.length_cons]
      rw [ih (seen + 1) (by push_cast; omega) (by omega)]
      omega

theorem mem_le_foldl_max (l : List ℚ) : ∀ (a b : ℚ), a ∈ l → a ≤ l.foldl max b := by
  induction l with
  | nil => intro a b h; simp at h
  | cons x t ih =>
    intro a b h
    simp only [List.mem_cons] at h
    simp only [List.foldl_cons]
    rcases h with rfl | h
    · exact le_foldl_max t a (max b a) (le_max_right b a)
    · exact ih a (max b x) h

/-- A successful `max_iter_valid` is at least `1` as soon as some source has
rows and a positive batch size (its ratio is positive and the maximum
dominates it). -/
theorem maxIterValid_ok_one_le {counts : List ℕ} {bss : List ℤ} {m : ℤ}
    (h : maxIterValid counts bss = Except.ok m) (p : ℕ × ℤ)
    (hp : p ∈ counts.zip bss) (hc : 0 < p.1) (hbs : 0 < p.2) : 1 ≤ m := by
  have hnz := maxIterValid_ok_no_zero h
  unfold maxIterValid at h
  rw [if_neg (by
    intro hex
    obtain ⟨q, hq, hq0⟩ := hex
    exact hnz q hq hq0)] at h
  have hrp : (0 : ℚ) < (p.1 : ℚ) / (p.2 : ℚ) := by
    apply div_pos
    · exact_mod_cast hc
    · exact_mod_cast hbs
  rcases hz : counts.zip bss with _ | ⟨q, qs⟩
  · rw [hz] at hp; simp at hp
  · rw [hz] at h hp
    simp only [Except.ok.injEq] at h
    have hfold : (p.1 : ℚ) / (p.2 : ℚ) ≤
        (qs.map (fun r => (r.1 : ℚ) / (r.2 : ℚ))).foldl max ((q.1 : ℚ) / (q.2 : ℚ)) := by
      simp only [List.mem_cons] at hp
      rcases hp with rfl | hp
      · exact le_foldl_max _ _ _ le_rfl
      · exact mem_le_foldl_max _ _ _ (List.mem_map.mpr ⟨p, hp, rfl⟩)
    have hpos : 0 < m := by
      rw [← h]
      exact Int.ceil_pos.mpr (lt_of_lt_of_le hrp hfold)
    omega

theorem forall2_exists_left {α β : Type} {R : α → β → Prop} :
    ∀ {l1 : List α} {l2 : List β}, List.Forall₂ R l1 l2 →
      ∀ b ∈ l2, ∃ a ∈ l1, R a b := by
  intro l1 l2 h
  induction h with
  | nil => intro b hb; simp at hb
  | cons hr _ ih =>
    intro b hb
    simp only [List.mem_cons] at hb
    rcases hb with rfl | hb
    · exact ⟨_, by simp, hr⟩
    · obtain ⟨a, ha, har⟩ := ih b hb
      exact ⟨a, by simp [ha], har⟩

theorem fromTensorSlices_ok_length {γ : Type} [Inhabited γ]
    {cols : List (List γ)} {rows : List (List γ)}
    (h : fromTensorSlices cols = Except.ok rows) :
    rows.length = (cols.getD 0 []).length := by
  cases cols with
  | nil => exact absurd h (by simp [fromTensorSlices])
  | cons c cs =>
    simp only [fromTensorSlices] at h
    by_cases hall : ∀ col ∈ cs, col.length = c.length
    · rw [if_pos hall] at h
      simp only [Except.ok.injEq] at h
      rw [← h]
      simp
    · rw [if_neg hall] at h
      exact absurd h (by simp)

/-- C2, amended: a configuration with an empty source yields no combined
batch at all (the claim as stated fails there); with every source nonempty —
and positive weights and batch size, so that TF accepts the per-source batch
sizes — one full validation iteration yields exactly
`max_iter_valid = ceil(max over sources of count / batch_size)` combined
batches.  Each invocation of `__iter__` builds fresh iterators and resets
`batches_seen`, so re-invocation repeats the same bounded sequence
(`validIter` is a function of the constructed state alone). -/
theorem validIter_yield_count {γ : Type} [Inhabited γ]
    (data : List (List (List γ) × ℚ)) (B : ℤ) (seed : Option ℤ)
    (d : MultiDataset γ)
    (hmk : mkMultiDataset data B Kind.valid seed = Except.ok d)
    (hw : ∀ s ∈ data, 0 < s.2) (hB : 0 < B)
    (hrows : ∀ s ∈ data, (s.1.getD 0 []).length ≠ 0) :
    (validIter d).length = d.max_iter_valid.toNat ∧
    1 ≤ d.max_iter_valid ∧
    maxIterValid d.counts d.batch_sizes = Except.ok d.max_iter_valid := by
  obtain ⟨hbd, hcounts, hweights, hbss, hmv, hkind, hseed, htl⟩ := mk_ok_inversion hmk
  have hne : data ≠ [] := by
    intro hdata
    rw [hdata] at hcounts hbss
    rw [hcounts, hbss] at hmv
    simp [maxIterValid, batchSizes, allocGo] at hmv
  have hwpos : ∀ w ∈ data.map (fun s => s.2), 0 < w := by
    intro x hx
    obtain ⟨s, hs, rfl⟩ := List.mem_map.mp hx
    exact hw s hs
  have hS : 0 < (data.map (fun s => s.2)).sum :=
    List.sum_pos _ hwpos (by simpa using hne)
  have hlen_cb : d.counts.length = d.batch_sizes.length := by
    rw [hcounts, hbss, batchSizes, allocGo_length, List.length_map, List.length_map]
  have hbs_nonneg : ∀ bs ∈ d.batch_sizes, 0 ≤ bs := by
    rw [hbss]
    exact allocGo_nonneg _ _ hS (by exact_mod_cast hB) _ 0 hwpos (by norm_num)
  have hnz := maxIterValid_ok_no_zero hmv
  have hbs_pos : ∀ bs ∈ d.batch_sizes, 0 < bs := by
    intro bs hbs
    obtain ⟨c, hc⟩ := exists_mem_zip_right d.counts d.batch_sizes bs hlen_cb hbs
    have h0 := hnz (c, bs) hc
    have h1 := hbs_nonneg bs hbs
    omega
  have hcount_pos : ∀ c ∈ d.counts, 0 < c := by
    intro c hc
    rw [hcounts] at hc
    obtain ⟨s, hs, rfl⟩ := List.mem_map.mp hc
    exact Nat.pos_of_ne_zero (hrows s hs)
  have hds_ne : ∀ rows ∈ d.datasets, rows ≠ [] := by
    intro rows hmem
    obtain ⟨s, hs, hok⟩ := forall2_exists_left (buildDatasets_ok_forall2 hbd) rows hmem
    have hlenr := fromTensorSlices_ok_length hok
    intro hnil
    rw [hnil] at hlenr
    exact hrows s hs hlenr.symm
  have hpull : ∀ k, ∃ v, pullAllValid d k = some v := by
    intro k
    apply pullAllValidGo_isSome
    intro p hp
    exact hds_ne p.1 (List.of_mem_zip hp).1
  have hclen : d.counts.length = data.length := by
    rw [hcounts, List.length_map]
  have hzip_ne : d.counts.zip d.batch_sizes ≠ [] := by
    intro hz
    have hlz := congrArg List.length hz
    rw [List.length_zip, ← hlen_cb, Nat.min_self, hclen, List.length_nil] at hlz
    exact hne (List.length_eq_zero.mp hlz)
  obtain ⟨q, qs, hzz⟩ : ∃ q qs, d.counts.zip d.batch_sizes = q :: qs := by
    rcases hzz : d.counts.zip d.batch_sizes with _ | ⟨q, qs⟩
    · exact absurd hzz hzip_ne
    · exact ⟨q, qs, rfl⟩
  have hqmem : q ∈ d.counts.zip d.batch_sizes := by rw [hzz]; simp
  have hmiv1 : 1 ≤ d.max_iter_valid :=
    maxIterValid_ok_one_le hmv q hqmem
      (hcount_pos q.1 (List.of_mem_zip hqmem).1)
      (hbs_pos q.2 (List.of_mem_zip hqmem).2)
  have hlen := validGo_length d hpull (d.max_iter_valid.toNat + 1) 0
    (by omega) (by omega)
  refine ⟨?_, hmiv1, hmv⟩
  simpa [validIter] using hlen

/-- A concrete two-source validation configuration: sizes `[1, 2]`, weights
`[1, 1]`, batch size `2` (per-source sizes `[1, 1]`, `max_iter_valid = 2`). -/
def dataEx : List (List (List ℕ) × ℚ) := [([[0]], 1), ([[1, 2]], 1)]

/-- The engine state `mkMultiDataset dataEx 2 valid none` constructs. -/
def dEx : MultiDataset ℕ :=
  { kind := Kind.valid, seed := none, datasets := [[[0]], [[1], [2]]],
    counts := [1, 2], weights := [1, 1], batch_sizes := [1, 1],
    max_iter_valid := 2, tuple_length := 1 }

/-- Like `dataEx` but the first source has zero rows. -/
def dataC2cex : List (List (List ℕ) × ℚ) := [([[]], 1), ([[1, 2]], 1)]

/-- The engine state `mkMultiDataset dataC2cex 2 valid none` constructs. -/
def dC2cex : MultiDataset ℕ :=
  { kind := Kind.valid, seed := none, datasets := [[], [[1], [2]]],
    counts := [0, 2], weights := [1, 1], batch_sizes := [1, 1],
    max_iter_valid := 2, tuple_length := 1 }

/-- C2 counterexample: a configuration with an empty first source constructs
fine with `max_cycles = ceil(max(0/1, 2/1)) = 2`, but its validation
iteration yields `0` combined batches (the empty source's iterator raises
`StopIteration` on the first pull), not `max_cycles`: the claim as stated
fails. -/
theorem validIter_empty_source_counterexample :
    mkMultiDataset dataC2cex 2 Kind.valid none = Except.ok dC2cex ∧
    dC2cex.max_iter_valid = 2 ∧ validIter dC2cex = [] := by decide

/-- C2 witness: the amended theorem applied to `dataEx`; `validIter dEx`
indeed has `max_iter_valid = 2` elements. -/
theorem validIter_yield_count_witness :
    (validIter dEx).length = dEx.max_iter_valid.toNat ∧
    1 ≤ dEx.max_iter_valid ∧
    maxIterValid dEx.counts dEx.batch_sizes = Except.ok dEx.max_iter_valid :=
  validIter_yield_count dataEx 2 none dEx (by decide) (by decide) (by decide)
    (by decide)

/-- The sequence of rows a single source contributes over `T` validation
steps: the concatenation of its first `T` sub-batches
(`repeat(-1).batch(bs)` of `multi_dataset.py:72-81`). -/
def readSeq {γ : Type} (rows : List (List γ)) (bs : ℤ) (T : ℕ) :
    List (List γ) :=
  ((List.range T).map (fun k => (pullBatch rows bs k).getD [])).flatten

/-- C5, amended: in validation mode a source's rows are read with no
shuffling, in deterministic cyclic index order — over `T` combined-batch
steps the source contributes exactly the rows at indices
`t % count` for `t = 0, 1, ..., T*bs - 1`.  In particular the first full
pass is in exact index order `0..count-1`; but once `T*bs` exceeds the row
count the sequence **does** wrap around and replay from the start (see the
counterexample), contrary to the claim as stated. -/
theorem valid_reads_in_index_order {γ : Type} (rows : List (List γ))
    (bs : ℤ) (T : ℕ) (hne : rows ≠ []) :
    readSeq rows bs T =
      (List.range (T * bs.toNat)).map (fun t => rows.getD (t % rows.length) []) ∧
    (rows.length ≤ T * bs.toNat →
      (readSeq rows bs T).take rows.length = rows) := by
  have key : ∀ T2 : ℕ, readSeq rows bs T2 =
      (List.range (T2 * bs.toNat)).map (fun t => rows.getD (t % rows.length) []) := by
    intro T2
    induction T2 with
    | zero => simp [readSeq]
    | succ T2 ih =>
      rw [readSeq, List.range_succ, List.map_append, List.flatten_append]
      rw [show ((List.map (fun k => (pullBatch rows bs k).getD []) [T2]).flatten) =
        (pullBatch rows bs T2).getD [] by simp]
      rw [← readSeq, ih, pullBatch_of_ne_nil rows bs T2 hne]
      simp only [Option.getD_some]
      rw [show (T2 + 1) * bs.toNat = T2 * bs.toNat + bs.toNat by ring]
      rw [List.range_add, List.map_append, List.map_map]
      rfl
  refine ⟨key T, ?_⟩
  intro hlen
  rw [key T, ← List.map_take, List.take_range, Nat.min_eq_left hlen]
  apply List.ext_getElem
  · simp
  · intro i h1 h2
    have hi : i < rows.length := by simpa using h2
    rw [List.getElem_map, List.getElem_range, Nat.mod_eq_of_lt hi,
      List.getD_eq_getElem rows [] hi]

/-- C5 counterexample: within the single validation epoch of `dEx`
(`max_iter_valid = 2`), the one-row first source contributes its row `0` at
step `0` **and again** at step `1`: its index sequence wraps around and
replays from the start, refuting "does not wrap around and replay from the
start within that validation epoch". -/
theorem valid_wraparound_counterexample :
    mkMultiDataset dataEx 2 Kind.valid none = Except.ok dEx ∧
    dEx.max_iter_valid = 2 ∧
    pullAllValid dEx 0 = some [[[0]], [[1]]] ∧
    pullAllValid dEx 1 = some [[[0]], [[2]]] := by decide

/-- C5 witness: a three-row source read with sub-batch size `2` over `2`
steps contributes rows `0, 1, 2, 0` — the first pass in exact index order. -/
theorem valid_reads_in_index_order_witness :
    readSeq [[10], [20], [30]] 2 2 = [[10], [20], [30], [10]] ∧
    (readSeq [[10], [20], [30]] 2 2).take 3 = [[10], [20], [30]] := by
  have h := valid_reads_in_index_order [[10], [20], [30]] 2 2 (by decide)
  constructor
  · rw [h.1]; decide
  · exact h.2 (by decide)

/-! ## C6: DataLossError handling in training mode -/

theorem attemptGo_dataLoss {β : Type} (p : ℕ → PullRes β) (c : ℕ) :
    ∀ (pre post : List ((ℕ → PullRes β) × ℕ)),
      (∀ x ∈ pre, ∃ b, x.1 x.2 = PullRes.batch b) →
      p c = PullRes.dataLoss →
      attemptGo (pre ++ (p, c) :: post) =
        (pre.map (fun x => x.2 + 1) ++ (c + 1) :: post.map (fun x => x.2),
          AttemptOut.continueOut) := by
  intro pre
  induction pre with
  | nil => intro post _ hfail; simp [attemptGo, hfail]
  | cons x pre ih =>
    intro post hpre hfail
    obtain ⟨b, hb⟩ := hpre x (by simp)
    obtain ⟨q, cq⟩ := x
    simp only at hb
    have hrec := ih post (fun y hy => hpre y (by simp [hy])) hfail
    rw [List.cons_append, attemptGo, hb, hrec]
    simp

/-- C6: if, in training mode, the pull from source `i` raises
`DataLossError` (after sources `0..i-1` delivered their sub-batches), then
the attempt ends in `continue`: the partially assembled combined batch is
discarded in its entirety, nothing is yielded for the attempt (the output
sequence of the loop is exactly that of the ensuing loop state), the batch
counter `seen` does not advance, and iteration resumes with a fresh pull
from every source — the sources up to and including `i` have consumed one
pull, those after `i` were never read, and all are read anew on the next
attempt. -/
theorem dataLoss_discards_attempt {β : Type} (pulls : List (ℕ → PullRes β))
    (cursors : List ℕ) (pre : List ((ℕ → PullRes β) × ℕ))
    (p : ℕ → PullRes β) (c : ℕ) (post : List ((ℕ → PullRes β) × ℕ))
    (fuel seen : ℕ)
    (hsplit : pulls.zip cursors = pre ++ (p, c) :: post)
    (hpre : ∀ x ∈ pre, ∃ b, x.1 x.2 = PullRes.batch b)
    (hfail : p c = PullRes.dataLoss) :
    runAttempt pulls cursors =
      (pre.map (fun x => x.2 + 1) ++ (c + 1) :: post.map (fun x => x.2),
        AttemptOut.continueOut) ∧
    trainLoop pulls (fuel + 1) cursors seen =
      trainLoop pulls fuel
        (pre.map (fun x => x.2 + 1) ++ (c + 1) :: post.map (fun x => x.2))
        seen := by
  have h1 : runAttempt pulls cursors =
      (pre.map (fun x => x.2 + 1) ++ (c + 1) :: post.map (fun x => x.2),
        AttemptOut.continueOut) := by
    rw [runAttempt, hsplit]
    exact attemptGo_dataLoss p c pre post hpre hfail
  refine ⟨h1, ?_⟩
  simp only [trainLoop, h1]

/-- The two pull streams of the C6 witness: the first source always
delivers, the second fails with `DataLossError` on its first pull only. -/
def pullsW : List (ℕ → PullRes ℕ) :=
  [fun k => PullRes.batch k,
   fun k => if k = 0 then PullRes.dataLoss else PullRes.batch k]

/-- C6 witness: with cursors `[0, 0]` the first attempt hits the
`DataLossError` of source `1`; it yields nothing, leaves `seen` at `0`, and
the loop resumes at cursors `[1, 1]`. -/
theorem dataLoss_discards_attempt_witness :
    runAttempt pullsW [0, 0] = ([1, 1], AttemptOut.continueOut) ∧
    trainLoop pullsW 1 [0, 0] 0 = trainLoop pullsW 0 [1, 1] 0 := by
  have h := dataLoss_discards_attempt pullsW [0, 0]
    [(fun k => PullRes.batch k, 0)]
    (fun k => if k = 0 then PullRes.dataLoss else PullRes.batch k) 0 [] 0 0
    rfl
    (by
      intro x hx
      simp only [List.mem_singleton] at hx
      rw [hx]
      exact ⟨0, rfl⟩)
    rfl
  simpa using h

/-! ## C7: the shuffle seeds -/

theorem buildDatasets_ok_length {γ : Type} [Inhabited γ]
    {data : List (List (List γ) × ℚ)} {ds : List (List (List γ))}
    (h : buildDatasets data = Except.ok ds) : ds.length = data.length :=
  (buildDatasets_ok_forall2 h).length_eq.symm

/-- C7, amended: `__iter__` passes the **same** global `self.seed` to every
source's `shuffle` call (`multi_dataset.py:67`) — the per-source seeds are
`replicate n seed`, not derived from the source index; and construction is
deterministic: two engines built from identical inputs are equal, so (the
shuffle being a deterministic function of buffer, seed and epoch in this
embedding) they produce identical batch sequences. -/
theorem trainShuffle_same_seed_every_source {γ : Type} [Inhabited γ]
    (data : List (List (List γ) × ℚ)) (B : ℤ) (seed : Option ℤ)
    (d : MultiDataset γ)
    (hmk : mkMultiDataset data B Kind.train seed = Except.ok d) :
    (trainShuffleSpecs d).map (fun sp => sp.seed) =
      List.replicate data.length seed ∧
    ∀ d2, mkMultiDataset data B Kind.train seed = Except.ok d2 → d2 = d := by
  obtain ⟨hbd, hcounts, hweights, hbss, hmv, hkind, hseed, htl⟩ :=
    mk_ok_inversion hmk
  constructor
  · rw [trainShuffleSpecs, List.map_map]
    rw [show ((fun sp : ShuffleSpec => sp.seed) ∘
        (fun x : List (List γ) × ℕ =>
          ({ buffer := 10 * x.2, reshuffle_each_iteration := true,
             seed := d.seed } : ShuffleSpec))) = fun _ => d.seed from rfl]
    rw [List.map_const', List.length_zip]
    rw [buildDatasets_ok_length hbd, hcounts, List.length_map, Nat.min_self,
      hseed]
  · intro d2 hmk2
    exact Except.ok.inj (hmk2.symm.trans hmk)

/-- The engine state `mkMultiDataset dataEx 2 train (some 5)` constructs. -/
def dTr : MultiDataset ℕ :=
  { kind := Kind.train, seed := some 5, datasets := [[[0]], [[1], [2]]],
    counts := [1, 2], weights := [1, 1], batch_sizes := [1, 1],
    max_iter_valid := 2, tuple_length := 1 }

/-- C7 counterexample: for a two-source engine seeded with `5`, the code
seeds both `shuffle` calls with `5`, while the claim's "global seed plus
source index" rule would give `[5, 6]`: the seeds are not source-specific. -/
theorem shuffle_seed_counterexample :
    mkMultiDataset dataEx 2 Kind.train (some 5) = Except.ok dTr ∧
    (trainShuffleSpecs dTr).map (fun sp => sp.seed) = [some 5, some 5] ∧
    specDerivedSeeds 5 2 = [some 5, some 6] ∧
    (trainShuffleSpecs dTr).map (fun sp => sp.seed) ≠ specDerivedSeeds 5 2 := by
  decide

/-- C7 witness: the amended theorem at the concrete two-source engine. -/
theorem trainShuffle_same_seed_witness :
    (trainShuffleSpecs dTr).map (fun sp => sp.seed) =
      List.replicate 2 (some 5) ∧
    ∀ d2, mkMultiDataset dataEx 2 Kind.train (some 5) = Except.ok d2 →
      d2 = dTr := by
  have h := trainShuffle_same_seed_every_source dataEx 2 (some 5) dTr
    (by decide)
  simpa using h

/-! ## C3: the transform hook (spec-modelled) -/

theorem runTransformed_ok {β ε : Type} (t : β → Except ε β) (g : β → β) :
    ∀ bs : List β, (∀ b ∈ bs, t b = Except.ok (g b)) →
      runTransformed t bs = (bs.map g, none) := by
  intro bs
  induction bs with
  | nil => intro _; rfl
  | cons b rest ih =>
    intro h
    have hb := h b (by simp)
    simp [runTransformed, hb, ih (fun x hx => h x (by simp [hx]))]

theorem runTransformed_error {β ε : Type} (t : β → Except ε β) (g : β → β) :
    ∀ (pre : List β) (b : β) (post : List β) (e : ε),
      (∀ x ∈ pre, t x = Except.ok (g x)) → t b = Except.error e →
      runTransformed t (pre ++ b :: post) = (pre.map g, some e) := by
  intro pre
  induction pre with
  | nil => intro b post e _ hb; simp [runTransformed, hb]
  | cons x pre ih =>
    intro b post e hpre hb
    have hx := hpre x (by simp)
    simp [runTransformed, hx, ih b post e (fun y hy => hpre y (by simp [hy])) hb]

/-- C3 (spec-modelled): with a transform installed, every batch the consumer
receives is exactly the transform's return value on the assembled combined
batch of that step; and when the transform fails at some step, the batches
before it are delivered transformed, the failure propagates to the consumer
as-is, and nothing is yielded past it — no retry. -/
theorem transform_final_batch {γ ε : Type} [Inhabited γ] (d : MultiDataset γ)
    (t : List (List γ) → Except ε (List (List γ)))
    (g : List (List γ) → List (List γ)) :
    ((∀ b ∈ validIter d, t b = Except.ok (g b)) →
      iterWithTransform d t = ((validIter d).map g, none)) ∧
    (∀ (pre : List (List (List γ))) (b : List (List γ))
        (post : List (List (List γ))) (e : ε),
      validIter d = pre ++ b :: post →
      (∀ x ∈ pre, t x = Except.ok (g x)) → t b = Except.error e →
      iterWithTransform d t = (pre.map g, some e)) := by
  constructor
  · intro h
    rw [iterWithTransform, runTransformed_ok t g _ h]
  · intro pre b post e hsplit hpre hb
    rw [iterWithTransform, hsplit, runTransformed_error t g pre b post e hpre hb]

/-- C3 witness: on the concrete engine `dEx` (combined batches
`[[0,1]], [[0,2]]`), a cell-incrementing transform is applied to every
yielded batch, and an always-failing transform propagates its error with
nothing yielded. -/
theorem transform_final_batch_witness :
    iterWithTransform dEx
        (fun bch => (Except.ok (bch.map (fun col => col.map (fun v => v + 1))) :
          Except ℕ (List (List ℕ)))) =
      ([[[1, 2]], [[1, 3]]], none) ∧
    iterWithTransform dEx (fun _ => Except.error (7 : ℕ)) = ([], some 7) := by
  constructor
  · have h := (transform_final_batch dEx
      (fun bch => (Except.ok (bch.map (fun col => col.map (fun v => v + 1))) :
        Except ℕ (List (List ℕ))))
      (fun bch => bch.map (fun col => col.map (fun v => v + 1)))).1 (by decide)
    rw [h]
    decide
  · have h := (transform_final_batch dEx (fun _ => Except.error (7 : ℕ))
      id).2 [] [[0, 1]] [[[0, 2]]] 7 (by decide) (by simp) rfl
    simpa using h

/-! ## C10: the `map` method -/

/-- C10: `MultiDataset.map` reads `self._datasets`, which no code path ever
assigns (the constructor assigns exactly `constructorAssignedAttrs`, and no
other method assigns attributes), so every call raises `AttributeError`. -/
theorem map_raises_attributeError :
    mapMethodLookup = Except.error PyError.attributeError ∧
    "_datasets" ∉ constructorAssignedAttrs := by decide

example : pyRound (3/2) = 2 := by decide
example : pyRound (-1/2) = 0 := by decide
example :
    mkMultiDataset [([[0]], 1), ([[1, 2]], 1)] 2 Kind.valid none =
      Except.ok { kind := Kind.valid, seed := none,
                  datasets := [[[0]], [[1], [2]]], counts := [1, 2],
                  weights := [1, 1], batch_sizes := [1, 1],
                  max_iter_valid := 2, tuple_length := 1,
                  : MultiDataset ℕ } := by decide

end TautauNN
